import Mathlib

/-!
# Lissajous: playback clock and trail renderer

A shallow embedding of `src/main.cpp` (the decay functions, `render`, the key
callback and the body of the main loop) together with the properties of the
playback clock and of the trail that the specification states.

Conventions of the embedding:

* a C++ `int` (and the 64-bit frame count `audio_info.frames`) is an `Int`;
  signed overflow is undefined behaviour in C++, so the results speak about
  the executions in which no `int` computation leaves its range;
* a `float` or `double` is a `ℚ` computed exactly: rounding is not part of the
  model.  Concrete inputs that contradict the specification are chosen so that
  the binary floating point computation of the program is exact, or is far
  from a rounding boundary, at them;
* the sample buffer `float *frames` is a `List ℚ` of interleaved left / right
  samples, read through `readFrames`, which has an explicit out-of-range
  result;
* the OpenGL calls that `render` issues are collected in a list.
-/

namespace Lissajous

/-! ## Decay functions and `render` -/

/-- Quadratic decay: `powf(((float)index) / ((float)window_size), 2)`. -/
def decay_exp (window_size index : Int) : ℚ :=
  ((index : ℚ) / (window_size : ℚ)) ^ 2

/-- No decay: the constant `1.0`. -/
def decay_none (_window_size _index : Int) : ℚ := 1

/-- The decay function that `render` selects (`auto decay_function = decay_exp`). -/
def decay_function (window_size index : Int) : ℚ := decay_exp window_size index

/-- The read `frames[i]` of the sample buffer; `none` when `i` is not an offset
of the buffer. -/
def readFrames (frames : List ℚ) (i : Int) : Option ℚ :=
  if i < 0 then none else frames[i.toNat]?

/-- One point of the trail: the values of the locals `x`, `y` and `alpha` in one
iteration of the loop of `render`. -/
structure TrailPoint where
  x : ℚ
  y : ℚ
  alpha : ℚ
deriving DecidableEq, Repr

/-- The body of the loop of `render` at loop variable `w`, up to the values it
hands to OpenGL: the alpha of the point and the two channels loaded as x / y. -/
def renderPoint (frames : List ℚ) (window_size frame_index : Int) (invert_lr : Bool)
    (w : Int) : Option TrailPoint :=
  let alpha := decay_function window_size (w - frame_index)
  match (if invert_lr then readFrames frames (w * 2 + 1) else readFrames frames (w * 2)),
        (if invert_lr then readFrames frames (w * 2) else readFrames frames (w * 2 + 1)) with
  | some x, some y => some { x := x, y := y, alpha := alpha }
  | _, _ => none

/-- The loop `for (int w = frame_index; w < frame_index + window_size; w++)` of
`render`, started at loop variable `w`.  The first argument bounds the number of
iterations still allowed; running out of it gives `none`, as an out-of-range
read does. -/
def renderLoop (frames : List ℚ) (window_size frame_index : Int) (invert_lr : Bool) :
    Nat → Int → Option (List TrailPoint)
  | 0, _ => none
  | fuel + 1, w =>
    if w < frame_index + window_size then
      match renderPoint frames window_size frame_index invert_lr w,
            renderLoop frames window_size frame_index invert_lr fuel (w + 1) with
      | some p, some ps => some (p :: ps)
      | _, _ => none
    else some []

/-- The trail of one frame: the loop of `render` run from `w = frame_index`
with room for `window_size + 1` tests of the loop condition. -/
def compute_trail (frames : List ℚ) (window_size frame_index : Int) (invert_lr : Bool) :
    Option (List TrailPoint) :=
  renderLoop frames window_size frame_index invert_lr (window_size.toNat + 1) frame_index

/-- The point the specification describes at one offset of the window: the
channels of frame `start_index + offset`, swapped when `axis_inverted`, with the
quadratic alpha of that offset. -/
def spec_point (frames : List ℚ) (window_size start_index : Nat) (axis_inverted : Bool)
    (offset : Nat) : TrailPoint :=
  let left := frames.getD (2 * (start_index + offset)) 0
  let right := frames.getD (2 * (start_index + offset) + 1) 0
  { x := if axis_inverted then right else left,
    y := if axis_inverted then left else right,
    alpha := ((offset : ℚ) / (window_size : ℚ)) ^ 2 }

/-- The trail the specification describes: the points of the offsets
`0 .. window_size - 1`, oldest first. -/
def spec_trail (frames : List ℚ) (window_size start_index : Nat) (axis_inverted : Bool) :
    List TrailPoint :=
  (List.range window_size).map (spec_point frames window_size start_index axis_inverted)

/-- Exchange of the two coordinates of a point. -/
def swapXY (p : TrailPoint) : TrailPoint := { x := p.y, y := p.x, alpha := p.alpha }

/-! ## Playback state, key callback and frame advance -/

/-- The playback state: the statics `frame_index`, `paused`, `invert_lr` and the
local `last_frame_time` of `main`. -/
structure State where
  frame_index : Int
  paused : Bool
  invert_lr : Bool
  last_frame_time : ℚ
deriving DecidableEq, Repr

/-- The keys the callback tells apart. -/
inductive Key where
  | GLFW_KEY_SPACE
  | GLFW_KEY_SLASH
  | GLFW_KEY_LEFT
  | GLFW_KEY_RIGHT
  | other
deriving DecidableEq, Repr

/-- The key actions of GLFW. -/
inductive Action where
  | GLFW_RELEASE
  | GLFW_PRESS
  | GLFW_REPEAT
deriving DecidableEq, Repr

/-- One invocation of the key callback: the key, the action, and what the two
`glfwGetKey` queries for the shift keys answer during it. -/
structure KeyEvent where
  key : Key
  action : Action
  shift_pressed : Bool
deriving DecidableEq, Repr

/-- The constant `scrub_size_large = audio_info.samplerate`. -/
def scrub_size_large (samplerate : Int) : Int := samplerate

/-- The constant `scrub_size_small = scrub_size_large / 10` (C++ integer division). -/
def scrub_size_small (samplerate : Int) : Int := (scrub_size_large samplerate).tdiv 10

/-- The local `scrub_size = shift_pressed ? scrub_size_large : scrub_size_small`. -/
def scrub_size (samplerate : Int) (shift_pressed : Bool) : Int :=
  if shift_pressed then scrub_size_large samplerate else scrub_size_small samplerate

/-- The left arrow branch: `frame_index -= scrub_size; if (frame_index < 0) frame_index = 0;`. -/
def scrub_left (size frame_index : Int) : Int :=
  let fi := frame_index - size
  if fi < 0 then 0 else fi

/-- The right arrow branch: `frame_index += scrub_size;` with no bound check. -/
def scrub_right (size frame_index : Int) : Int :=
  frame_index + size

/-- The key callback installed by `main`. -/
def keyCallback (samplerate : Int) (st : State) (ev : KeyEvent) : State :=
  let st1 : State :=
    if ev.action = Action.GLFW_PRESS ∧ ev.key = Key.GLFW_KEY_SPACE then
      { st with paused := !st.paused } else st
  let st2 : State :=
    if ev.action = Action.GLFW_PRESS ∧ ev.key = Key.GLFW_KEY_SLASH then
      { st1 with invert_lr := !st1.invert_lr } else st1
  let size := scrub_size samplerate ev.shift_pressed
  let st3 : State :=
    if ev.key = Key.GLFW_KEY_LEFT ∧
        (ev.action = Action.GLFW_PRESS ∨ ev.action = Action.GLFW_REPEAT) then
      { st2 with frame_index := scrub_left size st2.frame_index } else st2
  if ev.key = Key.GLFW_KEY_RIGHT ∧
      (ev.action = Action.GLFW_PRESS ∨ ev.action = Action.GLFW_REPEAT) then
    { st3 with frame_index := scrub_right size st3.frame_index } else st3

/-- The constant `frame_time = 1.0 / ((double)audio_info.samplerate)`. -/
def frame_time (samplerate : Int) : ℚ := 1 / (samplerate : ℚ)

/-- The constant `window_size = audio_info.samplerate / 20` (C++ integer division). -/
def window_size (samplerate : Int) : Int := samplerate.tdiv 20

/-- Conversion of a `double` to `int`: truncation toward zero. -/
def doubleToInt (q : ℚ) : Int := if 0 ≤ q then ⌊q⌋ else ⌈q⌉

/-- The local `time_delta = time - last_frame_time`. -/
def time_delta (time : ℚ) (st : State) : ℚ := time - st.last_frame_time

/-- The local `frame_advance_count = time_delta / frame_time`, converted to `int`. -/
def frame_advance_count (samplerate : Int) (time : ℚ) (st : State) : Int :=
  doubleToInt (time_delta time st / frame_time samplerate)

/-- What the frame advance block leaves behind: the state, the number of frames
it added to `frame_index`, and whether it left the loop through its `break`. -/
structure AdvanceResult where
  state : State
  count : Int
  ended : Bool
deriving DecidableEq, Repr

/-- The frame advance block of the main loop, from `double time = glfwGetTime()`
to `last_frame_time = time`.  When paused nothing is added to `frame_index`.
The `break` is taken after `frame_index` is updated and before
`last_frame_time` is. -/
def advance (samplerate audio_info_frames : Int) (time : ℚ) (st : State) : AdvanceResult :=
  if !st.paused then
    let count := frame_advance_count samplerate time st
    let fi := st.frame_index + count
    if fi > audio_info_frames then
      { state := { st with frame_index := fi }, count := count, ended := true }
    else
      { state := { st with frame_index := fi, last_frame_time := time },
        count := count, ended := false }
  else
    { state := { st with last_frame_time := time }, count := 0, ended := false }

/-- The last clock value of a run of ticks that starts from `t0`. -/
def last_tick : ℚ → List ℚ → ℚ
  | t0, [] => t0
  | _, t :: ts => last_tick t ts

theorem readFrames_natCast (frames : List ℚ) (i : Nat) (h : i < frames.length) :
    readFrames frames (i : Int) = some (frames.getD i 0) := by
  unfold readFrames
  have h0 : ¬ ((i : Int) < 0) := by omega
  rw [if_neg h0, Int.toNat_ofNat, List.getD_eq_getElem?_getD, List.getElem?_eq_getElem h]
  rfl

theorem renderPoint_in_range (frames : List ℚ) (ws s : Nat) (inv : Bool) (k : Nat)
    (hk : 2 * (s + k) + 1 < frames.length) :
    renderPoint frames (ws : Int) (s : Int) inv ((s : Int) + (k : Int))
      = some (spec_point frames ws s inv k) := by
  have e0 : ((s : Int) + (k : Int)) * 2 = ((2 * (s + k) : Nat) : Int) := by push_cast; ring
  have e1 : ((s : Int) + (k : Int)) * 2 + 1 = ((2 * (s + k) + 1 : Nat) : Int) := by
    push_cast; ring
  have r0 := readFrames_natCast frames (2 * (s + k)) (by omega)
  have r1 := readFrames_natCast frames (2 * (s + k) + 1) hk
  have ea : (s : Int) + (k : Int) - (s : Int) = (k : Int) := by ring
  unfold renderPoint
  rw [e1, e0, r0, r1, ea]
  cases inv <;> simp [spec_point, decay_function, decay_exp]

theorem renderLoop_in_range (frames : List ℚ) (ws s : Nat) (inv : Bool)
    (hlen : 2 * (s + ws) ≤ frames.length) :
    ∀ (r k : Nat), k + r = ws →
      renderLoop frames (ws : Int) (s : Int) inv (r + 1) ((s : Int) + (k : Int))
        = some ((List.range r).map (fun j => spec_point frames ws s inv (k + j))) := by
  intro r
  induction r with
  | zero =>
    intro k hk
    have h0 : ¬ ((s : Int) + (k : Int) < (s : Int) + (ws : Int)) := by omega
    simp [renderLoop, h0]
  | succ r ih =>
    intro k hk
    have h0 : (s : Int) + (k : Int) < (s : Int) + (ws : Int) := by omega
    have hp := renderPoint_in_range frames ws s inv k (by omega)
    have hn := ih (k + 1) (by omega)
    have e : (s : Int) + (k : Int) + 1 = (s : Int) + ((k + 1 : Nat) : Int) := by
      push_cast; ring
    rw [renderLoop, if_pos h0, hp, e, hn]
    simp only [List.range_succ_eq_map, List.map_cons, List.map_map, Nat.add_zero]
    congr 2
    apply List.map_congr_left
    intro j _
    simp only [Function.comp, Nat.succ_eq_add_one]
    congr 1
    omega

theorem compute_trail_in_range (frames : List ℚ) (ws s : Nat) (inv : Bool)
    (hlen : 2 * (s + ws) ≤ frames.length) :
    compute_trail frames (ws : Int) (s : Int) inv = some (spec_trail frames ws s inv) := by
  have h := renderLoop_in_range frames ws s inv hlen ws 0 (by omega)
  unfold compute_trail spec_trail
  rw [Int.toNat_ofNat]
  simpa using h

theorem getElem?_eq_some_getD (frames : List ℚ) (i : Nat) (h : i < frames.length) :
    frames[i]? = some (frames.getD i 0) := by
  rw [List.getD_eq_getElem?_getD, List.getElem?_eq_getElem h]
  rfl

theorem spec_trail_getElem? (frames : List ℚ) (ws s : Nat) (inv : Bool) (w : Nat)
    (hw : w < ws) :
    (spec_trail frames ws s inv)[w]? = some (spec_point frames ws s inv w) := by
  simp [spec_trail, List.getElem?_range hw]

theorem spec_trail_swap (frames : List ℚ) (ws s : Nat) :
    spec_trail frames ws s true = (spec_trail frames ws s false).map swapXY := by
  simp [spec_trail, spec_point, swapXY, Function.comp_def]

/-! ## The trail of one frame -/

/-- C7: for a window that satisfies the precondition of `render`, the trail with
`invert_lr` set is the trail with it cleared with x and y exchanged in every
point: the two have the same length and order and the same alpha per point; with
the flag off the point at offset `w` is (left, right) of frame `start_index + w`,
with it on it is (right, left). -/
theorem axis_inversion_swaps (frames : List ℚ) (N : Nat) (window_size start_index : Int)
    (hlen : frames.length = 2 * N) (hw : 0 < window_size) (hs : 0 ≤ start_index)
    (hN : start_index + window_size ≤ (N : Int)) :
    ∃ pts : List TrailPoint,
      compute_trail frames window_size start_index false = some pts ∧
      compute_trail frames window_size start_index true = some (pts.map swapXY) ∧
      (pts.map swapXY).length = pts.length ∧
      (pts.map swapXY).map TrailPoint.alpha = pts.map TrailPoint.alpha ∧
      (∀ w : Nat, (w : Int) < window_size →
        ∃ left right alpha : ℚ,
          frames[2 * (start_index.toNat + w)]? = some left ∧
          frames[2 * (start_index.toNat + w) + 1]? = some right ∧
          pts[w]? = some { x := left, y := right, alpha := alpha } ∧
          (pts.map swapXY)[w]? = some { x := right, y := left, alpha := alpha }) := by
  lift window_size to ℕ using hw.le with ws
  lift start_index to ℕ using hs with s
  have hb : 2 * (s + ws) ≤ frames.length := by omega
  have hf := compute_trail_in_range frames ws s false hb
  have ht := compute_trail_in_range frames ws s true hb
  refine ⟨spec_trail frames ws s false, hf, ?_, ?_, ?_, ?_⟩
  · rw [ht, spec_trail_swap]
  · simp
  · simp [swapXY, Function.comp_def]
  · intro w hlt
    have hw2 : w < ws := by exact_mod_cast hlt
    refine ⟨frames.getD (2 * (s + w)) 0, frames.getD (2 * (s + w) + 1) 0,
      ((w : ℚ) / (ws : ℚ)) ^ 2, ?_, ?_, ?_, ?_⟩
    · rw [Int.toNat_ofNat]
      exact getElem?_eq_some_getD frames _ (by omega)
    · rw [Int.toNat_ofNat]
      exact getElem?_eq_some_getD frames _ (by omega)
    · rw [spec_trail_getElem? frames ws s false w hw2]
      simp [spec_point]
    · rw [List.getElem?_map, spec_trail_getElem? frames ws s false w hw2]
      simp [spec_point, swapXY]

/-- C7, at a concrete input: a buffer of 3 frames, window 2, start index 1. -/
theorem axis_inversion_swaps_witness :
    ∃ pts : List TrailPoint,
      compute_trail [1, -1, 2, -2, 3, -3] 2 1 false = some pts ∧
      compute_trail [1, -1, 2, -2, 3, -3] 2 1 true = some (pts.map swapXY) ∧
      (pts.map swapXY).length = pts.length ∧
      (pts.map swapXY).map TrailPoint.alpha = pts.map TrailPoint.alpha ∧
      (∀ w : Nat, (w : Int) < 2 →
        ∃ left right alpha : ℚ,
          ([1, -1, 2, -2, 3, -3] : List ℚ)[2 * ((1 : Int).toNat + w)]? = some left ∧
          ([1, -1, 2, -2, 3, -3] : List ℚ)[2 * ((1 : Int).toNat + w) + 1]? = some right ∧
          pts[w]? = some { x := left, y := right, alpha := alpha } ∧
          (pts.map swapXY)[w]? = some { x := right, y := left, alpha := alpha }) :=
  axis_inversion_swaps [1, -1, 2, -2, 3, -3] 3 2 1 (by decide) (by decide) (by decide)
    (by decide)

theorem scrub_size_small_eq (samplerate : Int) (h : 0 < samplerate) :
    scrub_size_small samplerate = samplerate / 10 := by
  unfold scrub_size_small scrub_size_large
  exact Int.tdiv_eq_ediv h.le (by decide)

theorem keyCallback_frame_index (samplerate : Int) (st : State) (ev : KeyEvent) :
    (keyCallback samplerate st ev).frame_index =
      if ev.key = Key.GLFW_KEY_LEFT ∧
          (ev.action = Action.GLFW_PRESS ∨ ev.action = Action.GLFW_REPEAT) then
        scrub_left (scrub_size samplerate ev.shift_pressed) st.frame_index
      else if ev.key = Key.GLFW_KEY_RIGHT ∧
          (ev.action = Action.GLFW_PRESS ∨ ev.action = Action.GLFW_REPEAT) then
        scrub_right (scrub_size samplerate ev.shift_pressed) st.frame_index
      else st.frame_index := by
  obtain ⟨key, action, shift⟩ := ev
  cases key <;> cases action <;> simp [keyCallback]

/-- C8: for a positive sample rate the scrub size with shift held is the sample
rate and without shift it is the integer tenth of the sample rate (exactly one
tenth when the rate is a multiple of 10); at 48000 Hz these are 48000 and 4800.
The size the callback scrubs by is this value whatever the playback state is. -/
theorem scrub_unit_values (samplerate : Int) (h : 0 < samplerate) :
    scrub_size samplerate true = samplerate ∧
    scrub_size samplerate false = samplerate / 10 ∧
    10 * scrub_size samplerate false ≤ samplerate ∧
    samplerate < 10 * scrub_size samplerate false + 10 ∧
    (10 ∣ samplerate → 10 * scrub_size samplerate false = samplerate) ∧
    scrub_size 48000 true = 48000 ∧
    scrub_size 48000 false = 4800 ∧
    (∀ (st : State) (action : Action) (shift : Bool),
      action = Action.GLFW_PRESS ∨ action = Action.GLFW_REPEAT →
      (keyCallback samplerate st
          { key := Key.GLFW_KEY_RIGHT, action := action, shift_pressed := shift }).frame_index
        = st.frame_index + scrub_size samplerate shift ∧
      (keyCallback samplerate st
          { key := Key.GLFW_KEY_LEFT, action := action, shift_pressed := shift }).frame_index
        = max 0 (st.frame_index - scrub_size samplerate shift)) := by
  have hs : scrub_size samplerate false = samplerate / 10 := by
    simp [scrub_size, scrub_size_small_eq samplerate h]
  refine ⟨by simp [scrub_size, scrub_size_large], hs, ?_, ?_, ?_, by decide, by decide, ?_⟩
  · rw [hs]; omega
  · rw [hs]; omega
  · intro hd
    rw [hs]
    omega
  · intro st action shift ha
    constructor
    · rw [keyCallback_frame_index]
      simp [ha, scrub_right]
    · rw [keyCallback_frame_index]
      simp only [ha, and_self, if_true]
      unfold scrub_left
      simp only
      split_ifs with hlt <;> omega

/-- C8, at the sample rate 44100. -/
theorem scrub_unit_values_witness :
    scrub_size 44100 true = 44100 ∧
    scrub_size 44100 false = 44100 / 10 ∧
    10 * scrub_size 44100 false ≤ 44100 ∧
    44100 < 10 * scrub_size 44100 false + 10 ∧
    (10 ∣ (44100 : Int) → 10 * scrub_size 44100 false = 44100) ∧
    scrub_size 48000 true = 48000 ∧
    scrub_size 48000 false = 4800 ∧
    (∀ (st : State) (action : Action) (shift : Bool),
      action = Action.GLFW_PRESS ∨ action = Action.GLFW_REPEAT →
      (keyCallback 44100 st
          { key := Key.GLFW_KEY_RIGHT, action := action, shift_pressed := shift }).frame_index
        = st.frame_index + scrub_size 44100 shift ∧
      (keyCallback 44100 st
          { key := Key.GLFW_KEY_LEFT, action := action, shift_pressed := shift }).frame_index
        = max 0 (st.frame_index - scrub_size 44100 shift)) :=
  scrub_unit_values 44100 (by decide)

/-- C2: when paused, the frame advance at any clock value `now` adds no frame
(its count is 0), leaves `frame_index`, `paused` and `invert_lr` as they are,
does not leave the loop, and sets `last_frame_time` to `now`. -/
theorem advance_paused (samplerate audio_info_frames : Int) (now : ℚ) (st : State)
    (h : st.paused = true) :
    (advance samplerate audio_info_frames now st).count = 0 ∧
    (advance samplerate audio_info_frames now st).state.frame_index = st.frame_index ∧
    (advance samplerate audio_info_frames now st).state.paused = st.paused ∧
    (advance samplerate audio_info_frames now st).state.invert_lr = st.invert_lr ∧
    (advance samplerate audio_info_frames now st).state.last_frame_time = now ∧
    (advance samplerate audio_info_frames now st).ended = false := by
  simp [advance, h]

/-- C2, at a paused state with index 7 and a clock value far ahead. -/
theorem advance_paused_witness :
    (advance 44100 1000000 3600
      { frame_index := 7, paused := true, invert_lr := true, last_frame_time := 1 }).count
        = 0 ∧
    (advance 44100 1000000 3600
      { frame_index := 7, paused := true, invert_lr := true,
        last_frame_time := 1 }).state.frame_index = 7 ∧
    (advance 44100 1000000 3600
      { frame_index := 7, paused := true, invert_lr := true,
        last_frame_time := 1 }).state.last_frame_time = 3600 :=
  have h := advance_paused 44100 1000000 3600
    { frame_index := 7, paused := true, invert_lr := true, last_frame_time := 1 } rfl
  ⟨h.1, h.2.1, h.2.2.2.2.1⟩

theorem last_tick_ge : ∀ (ts : List ℚ) (t0 : ℚ),
    List.Chain (fun a b => a ≤ b) t0 ts → t0 ≤ last_tick t0 ts := by
  intro ts
  induction ts with
  | nil => intro t0 _; simp [last_tick]
  | cons t ts ih =>
    intro t0 hc
    rw [List.chain_cons] at hc
    exact le_trans hc.1 (ih t hc.2)

end Lissajous
